import Mathlib

/-!
Shallow embedding of the N-1 version-resolution core of the repository:

* `lib/modules/versioning/index.ts` (the error-handling variant with caching,
  i.e. the second copy in `src/unnamed/part_004`, lines 245-702):
  `get`, `groupVersionsBySemverLevel`, `getVersionFromSemverGroups`,
  `getNewValue`.
* `lib/util/registry.ts` (in `src/unnamed/part_002`, lines 192-333):
  `isRetryableError`, `retryWithExponentialBackoff`, retry defaults.
* The in-memory cache module `lib/util/cache/memory` is not part of the
  repository snapshot; it is modelled from the spec (see `memGet`/`memSet`).

Modelling conventions:
* JavaScript `undefined`/`null` option fields become `Option`.
* The versioning scheme is the external capability of spec section 6: total
  functions, except `isValid` which the source guards with try/catch and is
  therefore modelled as `Option Bool` (`none` means the check itself threw).
* `getMajor`/`getMinor`/`getPatch` return `Int` (the integer case of the
  JS `number | null` signature; stringifying an integer and re-reading it via
  `split('.')` + `parseInt` is the identity, so semver-group keys are
  modelled as their component lists, see `GroupKey`).
* `async`/`await` with the registry and the cache becomes explicit state
  passing: each resolution takes the current time (in minutes), the cache
  contents, and an environment providing the scheme registry and the
  registry fetch, and returns the value, the updated cache, and the number
  of registry invocations performed during the call.
* JavaScript `Array.prototype.sort` with a comparator is a stable
  comparator sort; it is modelled by the stable insertion sort `jsSortBy`.
-/

/-- Semantic offset level, the `('major' | 'minor' | 'patch')` union type of
the source. -/
inductive Level where
  | major
  | minor
  | patch
deriving DecidableEq, Repr

/-- One registry release (`lib/modules/datasource/types`, as consumed here):
only the `version` field is read by the resolver.  `none` models a
null / undefined / non-string `version` field. -/
structure Release where
  version : Option String
deriving DecidableEq, Repr

/-- Registry answer for one package (`ReleaseResult`): the list of releases. -/
structure ReleaseResult where
  releases : List Release
deriving DecidableEq, Repr

deriving instance DecidableEq for Except

/-- The `constraints` object of `GetNewValueConfig`. -/
structure Constraints where
  allowedVersions : Option String := none
  offset : Option Int := none
  offsetLevel : Option Level := none
  ignorePrerelease : Option Bool := none
deriving DecidableEq, Repr

/-- The `config` field of `GetNewValueConfig` (datasource, packageName,
versioning id, constraints). -/
structure ResolveConfig where
  datasource : Option String := none
  packageName : Option String := none
  versioning : String
  constraints : Option Constraints := none
deriving DecidableEq, Repr

/-- The external versioning-scheme capability (spec section 6 / the
`VersioningApi` interface): validity and stability checks, a comparator,
and component extraction.  `isValid` returns `none` when the underlying
check throws (the source wraps only this call in try/catch). -/
structure VersioningApi where
  isVersion : String → Bool
  isValid : String → Option Bool
  isStable : String → Bool
  sortVersions : String → String → Int
  getMajor : String → Int
  getMinor : String → Int
  getPatch : String → Int

/-- Stable insertion of one element with a JS-style comparator: `x` is
placed before the first element `y` with `cmp x y < 0`, i.e. after every
earlier element that does not compare strictly greater. -/
def insertBy {α : Type} (cmp : α → α → Int) (x : α) : List α → List α
  | [] => [x]
  | y :: ys => if cmp x y < 0 then x :: y :: ys else y :: insertBy cmp x ys

/-- Model of `Array.prototype.sort(comparator)`: a stable comparator sort,
realised as left-to-right insertion sort. -/
def jsSortBy {α : Type} (cmp : α → α → Int) (l : List α) : List α :=
  l.foldl (fun acc x => insertBy cmp x acc) []

theorem insertBy_perm {α : Type} (cmp : α → α → Int) (x : α) (l : List α) :
    (insertBy cmp x l).Perm (x :: l) := by
  induction l with
  | nil => simp [insertBy]
  | cons y ys ih =>
    by_cases h : cmp x y < 0
    · simp [insertBy, h]
    · simp only [insertBy, if_neg h]
      exact ((ih.cons y).trans (List.Perm.swap x y ys))

theorem foldl_insertBy_perm {α : Type} (cmp : α → α → Int) :
    ∀ (l acc : List α),
      (l.foldl (fun a x => insertBy cmp x a) acc).Perm (acc ++ l) := by
  intro l
  induction l with
  | nil => intro acc; simp
  | cons x xs ih =>
    intro acc
    have h1 := ih (insertBy cmp x acc)
    have h2 : (insertBy cmp x acc ++ xs).Perm (acc ++ x :: xs) := by
      have := (insertBy_perm cmp x acc).append_right xs
      exact this.trans (List.perm_middle.symm)
    simpa using h1.trans h2

theorem jsSortBy_perm {α : Type} (cmp : α → α → Int) (l : List α) :
    (jsSortBy cmp l).Perm l := by
  simpa [jsSortBy] using foldl_insertBy_perm cmp l []

theorem jsSortBy_length {α : Type} (cmp : α → α → Int) (l : List α) :
    (jsSortBy cmp l).length = l.length :=
  (jsSortBy_perm cmp l).length_eq

theorem mem_jsSortBy {α : Type} {cmp : α → α → Int} {l : List α} {x : α} :
    x ∈ jsSortBy cmp l ↔ x ∈ l :=
  (jsSortBy_perm cmp l).mem_iff

/-- Environment a resolution runs in: the scheme registry (`Versioning`
schema lookup; `none` models an unregistered scheme id for which `get`
throws), the parameterised registry call
`registry.getPkgReleases({datasource, packageName, versioning})`, and the
parameterless compatibility call `registry.getPkgReleases()`.  A fetch
result is `Except Unit (Option ReleaseResult)`: `.error` models a thrown
(post-retry) transport error, `.ok none` a `null` answer. -/
structure Env where
  schemes : String → Option VersioningApi
  fetch : String → String → String → Except Unit (Option ReleaseResult)
  fetchNoParams : Except Unit (Option ReleaseResult)

/-- Modelled from the spec: one entry of the in-memory cache module
`lib/util/cache/memory` (absent from the repository snapshot).  Per spec
sections 3 and 4.2 an entry is `(namespace+key, ReleaseSet, expiresAt)`;
time is counted in minutes. -/
structure CacheEntry where
  ns : String
  key : String
  value : ReleaseResult
  expiresAt : Nat
deriving DecidableEq, Repr

/-- Modelled from the spec: the cache contents, newest entry first. -/
abbrev Cache := List CacheEntry

/-- Modelled from the spec: `memCache.get(namespace, key)` at time `now`;
a hit within the TTL (`now < expiresAt`) returns the stored release set,
an expired or missing entry reads as absent. -/
def memGet (cache : Cache) (ns key : String) (now : Nat) : Option ReleaseResult :=
  match cache with
  | [] => none
  | e :: rest =>
    if e.ns = ns ∧ e.key = key then
      if now < e.expiresAt then some e.value else none
    else memGet rest ns key now

/-- Modelled from the spec: `memCache.set(namespace, key, value, ttlMinutes)`
at time `now`; replaces any previous entry for the key and stamps
`expiresAt = now + ttlMinutes`. -/
def memSet (cache : Cache) (ns key : String) (v : ReleaseResult)
    (ttlMinutes : Nat) (now : Nat) : Cache :=
  { ns := ns, key := key, value := v, expiresAt := now + ttlMinutes } ::
    cache.filter (fun e => ¬(e.ns = ns ∧ e.key = key))

/-- The cache namespace string used by `getNewValue`. -/
def cacheNamespace : String := "n-minus-one-versions"

/-- JavaScript truthiness of an optional string: undefined and the empty
string are falsy. -/
def isFalsyStr : Option String → Bool
  | none => true
  | some s => s.isEmpty

/-- JavaScript template-literal interpolation of an optional string:
undefined prints as the text "undefined". -/
def jsTemplateStr : Option String → String
  | none => "undefined"
  | some s => s

/-- The cache key of `getNewValue`, the dash-joined template literal over
datasource, packageName and versioning id. -/
def cacheKeyOf (config : ResolveConfig) : String :=
  jsTemplateStr config.datasource ++ "-" ++ jsTemplateStr config.packageName
    ++ "-" ++ config.versioning

/-- Resolved offset, `config.constraints?.offset ?? 0`. -/
def offsetOf (config : ResolveConfig) : Int :=
  (config.constraints.bind (·.offset)).getD 0

/-- Resolved offset level, `config.constraints?.offsetLevel`. -/
def offsetLevelOf (config : ResolveConfig) : Option Level :=
  config.constraints.bind (·.offsetLevel)

/-- Resolved prerelease policy,
`config.constraints?.ignorePrerelease !== false`. -/
def ignorePrereleaseOf (config : ResolveConfig) : Bool :=
  (config.constraints.bind (·.ignorePrerelease)) ≠ some false

/-- The input-validation test of `getNewValue` (source lines 435-445):
`config.constraints?.offset !== undefined && config.constraints.offset > 0`. -/
def hasPositiveOffset (config : ResolveConfig) : Bool :=
  match config.constraints.bind (·.offset) with
  | some o => 0 < o
  | none => false

/-- Outcome of the fetch block of `getNewValue` (source lines 470-518):
the releases obtained (or the thrown error), the cache after the block,
and the number of registry invocations the block performed. -/
structure FetchResult where
  versions : Except Unit (Option ReleaseResult)
  cache : Cache
  fetchCount : Nat

/-- The fetch block of `getNewValue` (source lines 470-499): a falsy
datasource or packageName takes the parameterless compatibility path;
otherwise the cache is consulted first, and a successful fetch with a
non-empty release list is cached for 15 minutes. -/
def fetchVersions (env : Env) (now : Nat) (cache : Cache)
    (config : ResolveConfig) : FetchResult :=
  let cacheKey := cacheKeyOf config
  if isFalsyStr config.datasource || isFalsyStr config.packageName then
    { versions := env.fetchNoParams, cache := cache, fetchCount := 1 }
  else
    match memGet cache cacheNamespace cacheKey now with
    | some cached => { versions := .ok (some cached), cache := cache, fetchCount := 0 }
    | none =>
      match env.fetch (jsTemplateStr config.datasource)
          (jsTemplateStr config.packageName) config.versioning with
      | .ok v =>
        let cache' :=
          match v with
          | some r =>
            if r.releases.length ≠ 0 then memSet cache cacheNamespace cacheKey r 15 now
            else cache
          | none => cache
        { versions := .ok v, cache := cache', fetchCount := 1 }
      | .error e => { versions := .error e, cache := cache, fetchCount := 1 }

/-- The version filter of `getNewValue` (source lines 537-575): keep the
`version` field of each release when it is a non-empty string whose
`isValid` check neither throws nor rejects. -/
def filterValidVersions (versioning : VersioningApi) (releases : List Release) :
    List String :=
  releases.filterMap fun r =>
    match r.version with
    | none => none
    | some v =>
      if v.isEmpty then none
      else
        match versioning.isValid v with
        | some true => some v
        | _ => none

/-- The filtered version list after the optional prerelease filter
(source lines 577-583). -/
def stableFiltered (versioning : VersioningApi) (config : ResolveConfig)
    (releases : List Release) : List String :=
  let filteredVersions := filterValidVersions versioning releases
  if ignorePrereleaseOf config then filteredVersions.filter versioning.isStable
  else filteredVersions

/-- The filtered, comparator-sorted version list a resolution works on
(source lines 602-612; the large-list branch of the source sorts with the
identical comparator). -/
def sortedOf (versioning : VersioningApi) (config : ResolveConfig)
    (vr : ReleaseResult) : List String :=
  jsSortBy versioning.sortVersions (stableFiltered versioning config vr.releases)

/-- Semver-group key.  The source builds string keys such as "2", "2.1",
"2.1.3" from integer components and later recovers the components with
`key.split('.')` + `parseInt`; over integer components this round trip is
the identity (the decimal rendering of an integer contains no dot), so keys
are modelled directly as their component lists. -/
abbrev GroupKey := List Int

/-- Semver groups, as the source's `Record<string, string[]>`: an
association list in insertion order, each key mapped to the member
versions pushed so far. -/
abbrev Groups := List (GroupKey × List String)

/-- Key computation of `groupVersionsBySemverLevel` for one version
(source lines 328-344). -/
def groupKeyFor (versioning : VersioningApi) (level : Level) (v : String) :
    GroupKey :=
  match level with
  | Level.major => [versioning.getMajor v]
  | Level.minor => [versioning.getMajor v, versioning.getMinor v]
  | Level.patch => [versioning.getMajor v, versioning.getMinor v, versioning.getPatch v]

/-- Push a version onto its group, creating the group at the end of the
record when absent (source lines 346-349; JS object insertion order). -/
def addToGroup (groups : Groups) (key : GroupKey) (v : String) : Groups :=
  match groups with
  | [] => [(key, [v])]
  | (k, vs) :: rest =>
    if k = key then (k, vs ++ [v]) :: rest
    else (k, vs) :: addToGroup rest key v

/-- Source `groupVersionsBySemverLevel` (lines 311-362): drop versions the
scheme does not recognise, bucket the rest by semantic level, then sort
each group by the scheme comparator (the source skips the sort call for
singleton groups; sorting a singleton is the identity, the branch is kept
for fidelity). -/
def groupVersionsBySemverLevel (versions : List String)
    (versioning : VersioningApi) (level : Level) : Groups :=
  let groups := versions.foldl
    (fun gs v =>
      if versioning.isVersion v then addToGroup gs (groupKeyFor versioning level v) v
      else gs)
    []
  groups.map fun kv =>
    (kv.1, if 1 < kv.2.length then jsSortBy versioning.sortVersions kv.2 else kv.2)

/-- Record lookup `groups[key]`. -/
def assocFind (groups : Groups) (key : GroupKey) : Option (List String) :=
  match groups with
  | [] => none
  | (k, vs) :: rest => if k = key then some vs else assocFind rest key

/-- Highest member of one group, `groups[k][groups[k].length - 1]`, as used
by the group-key comparator of `getVersionFromSemverGroups` (lines
375-380); groups produced by `groupVersionsBySemverLevel` are never empty,
so the defaults are inert. -/
def lastOfGroup (groups : Groups) (key : GroupKey) : String :=
  ((assocFind groups key).getD []).getLastD ""

/-- Source `getVersionFromSemverGroups` (lines 367-424): order the group
keys by each group's highest member, restrict minor/patch levels to the
current version's siblings, select the key at `count - 1 + offset`, and
answer with that group's highest member; `none` models the `null` /
`undefined` no-selection results. -/
def getVersionFromSemverGroups (groups : Groups) (versioning : VersioningApi)
    (offset : Int) (level : Level) (currentVersion : String) : Option String :=
  let groupKeys := jsSortBy
    (fun a b => versioning.sortVersions (lastOfGroup groups a) (lastOfGroup groups b))
    (groups.map Prod.fst)
  if groupKeys.length = 0 then none
  else
    let filteredGroupKeys :=
      match level with
      | Level.minor =>
        groupKeys.filter fun (key : GroupKey) =>
          key.head? == some (versioning.getMajor currentVersion)
      | Level.patch =>
        groupKeys.filter fun (key : GroupKey) =>
          key.head? == some (versioning.getMajor currentVersion) &&
          key.get? 1 == some (versioning.getMinor currentVersion)
      | Level.major => groupKeys
    if filteredGroupKeys.length = 0 then none
    else
      let targetGroupIndex : Int := (filteredGroupKeys.length : Int) - 1 + offset
      if targetGroupIndex < 0 ∨ (filteredGroupKeys.length : Int) ≤ targetGroupIndex then
        none
      else
        match assocFind groups (filteredGroupKeys.getD targetGroupIndex.toNat []) with
        | some targetGroup => targetGroup.getLast?
        | none => none

/-- The post-fetch part of `getNewValue` (source lines 520-702): empty and
null answers, the validity/prerelease filters, the comparator sort, then
offset selection (flat or semver-grouped), falling back to the caller's
current value whenever no selection is possible.  The `if (result)` JS
truthiness test makes an empty-string selection fall back too. -/
def selectNewValue (versioning : VersioningApi) (config : ResolveConfig)
    (currentValue currentVersion : String) (versions : Option ReleaseResult) :
    String :=
  match versions with
  | none => currentValue
  | some vr =>
    if vr.releases.length = 0 then currentValue
    else
      let filteredVersions := stableFiltered versioning config vr.releases
      if filteredVersions.length = 0 then currentValue
      else
        let sortedVersions := jsSortBy versioning.sortVersions filteredVersions
        if sortedVersions.length = 0 then currentValue
        else
          let offset := offsetOf config
          if offset = 0 then sortedVersions.getLastD ""
          else
            match offsetLevelOf config with
            | some level =>
              let groups := groupVersionsBySemverLevel sortedVersions versioning level
              match getVersionFromSemverGroups groups versioning offset level
                  currentVersion with
              | some result => if result.isEmpty then currentValue else result
              | none => currentValue
            | none =>
              let targetIndex : Int := (sortedVersions.length : Int) - 1 + offset
              if targetIndex < 0 ∨ (sortedVersions.length : Int) ≤ targetIndex then
                currentValue
              else sortedVersions.getD targetIndex.toNat ""

/-- Body of `getNewValue` once the scheme has been resolved (source lines
434-702): positive-offset validation (the offsetLevel enum check of lines
447-457 is a no-op over the typed `Level` model, and the
offsetLevel-without-offset case of lines 460-468 only logs), then the
fetch block, then selection.  Answer: the value, the cache after the call,
and the number of registry invocations. -/
def getNewValueWith (versioning : VersioningApi) (env : Env) (now : Nat)
    (cache : Cache) (currentValue rangeStrategy currentVersion : String)
    (config : ResolveConfig) : String × Cache × Nat :=
  if hasPositiveOffset config then (currentValue, cache, 0)
  else
    let fr := fetchVersions env now cache config
    match fr.versions with
    | .error _ => (currentValue, fr.cache, fr.fetchCount)
    | .ok versions =>
      (selectNewValue versioning config currentValue currentVersion versions,
        fr.cache, fr.fetchCount)

/-- Source `getNewValue` (lines 426-702).  The only exception path is the
one `get(config.versioning)` takes for an unregistered scheme id, modelled
as `.error` carrying the offending id; every other outcome is `.ok`. -/
def getNewValue (env : Env) (now : Nat) (cache : Cache)
    (currentValue rangeStrategy currentVersion : String)
    (config : ResolveConfig) : Except String (String × Cache × Nat) :=
  match env.schemes config.versioning with
  | none => .error config.versioning
  | some versioning =>
    .ok (getNewValueWith versioning env now cache currentValue rangeStrategy
      currentVersion config)

/-- A thrown JavaScript error as inspected by `isRetryableError`
(`lib/util/registry.ts`): the optional `code`, `statusCode`, `name`,
`message` and `type` fields. -/
structure JsError where
  code : Option String := none
  statusCode : Option Nat := none
  name : Option String := none
  message : Option String := none
  errType : Option String := none
deriving DecidableEq, Repr

/-- Source `RETRYABLE_ERROR_CODES` (registry lines 209-219). -/
def RETRYABLE_ERROR_CODES : List String :=
  ["ECONNRESET", "ETIMEDOUT", "ENOTFOUND", "ECONNREFUSED", "EHOSTUNREACH",
   "ENETUNREACH", "EADDRINUSE", "ECONNABORTED", "EPIPE"]

/-- Source `RETRYABLE_STATUS_CODES` (registry lines 222-229). -/
def RETRYABLE_STATUS_CODES : List Nat :=
  [408, 429, 500, 502, 503, 504]

/-- JavaScript `String.prototype.includes` for a non-empty pattern:
splitting on a contained pattern yields more than one piece. -/
def strIncludes (s pat : String) : Bool :=
  1 < (s.splitOn pat).length

/-- Source `isRetryableError` (registry lines 238-260); the leading
`error.code &&` / `error.statusCode &&` truthiness guards become the
emptiness / zero tests. -/
def isRetryableError (e : JsError) : Bool :=
  (match e.code with
   | some c => !c.isEmpty && RETRYABLE_ERROR_CODES.contains c
   | none => false) ||
  (match e.statusCode with
   | some s => s != 0 && RETRYABLE_STATUS_CODES.contains s
   | none => false) ||
  (e.name == some "TimeoutError" ||
   (match e.message with
    | some m => strIncludes m "timeout"
    | none => false)) ||
  (e.name == some "NetworkError" || e.errType == some "network")

/-- Source `RetryConfig`: every knob optional. -/
structure RetryConfig where
  maxAttempts : Option Nat := none
  initialDelay : Option Nat := none
  maxDelay : Option Nat := none
  backoffMultiplier : Option Nat := none
deriving DecidableEq, Repr

/-- Source `DEFAULT_RETRY_CONFIG` (registry lines 201-206). -/
structure RetryDefaults where
  maxAttempts : Nat
  initialDelay : Nat
  maxDelay : Nat
  backoffMultiplier : Nat
deriving DecidableEq, Repr

/-- Default retry policy: 3 attempts, 1000 ms initial delay, 30000 ms cap,
multiplier 2. -/
def DEFAULT_RETRY_CONFIG : RetryDefaults :=
  { maxAttempts := 3, initialDelay := 1000, maxDelay := 30000, backoffMultiplier := 2 }

/-- Observable trace of one `retryWithExponentialBackoff` run: the final
result (`.error none` models the dead-code `throw lastError` with
`lastError` still undefined, reachable only when the loop never runs), the
sleep durations performed between attempts, and the number of invocations
of the wrapped operation. -/
structure RetryTrace (α : Type) where
  result : Except (Option JsError) α
  delays : List Nat
  calls : Nat
deriving Repr

/-- The retry loop of `retryWithExponentialBackoff` (registry lines
280-316).  `fn k` is the outcome of the k-th invocation of the wrapped
operation (attempts are 1-based as in the source); `rem` counts the loop
iterations still allowed, maintained as `maxAttempts + 1 - attempt`, so
`rem = 0` is exactly the loop exit `attempt > maxAttempts`, which runs the
trailing `throw lastError`. -/
def retryLoop {α : Type} (fn : Nat → Except JsError α)
    (maxAttempts initialDelay maxDelay backoffMultiplier : Nat) :
    Nat → Nat → Option JsError → RetryTrace α
  | 0, _, lastError => { result := .error lastError, delays := [], calls := 0 }
  | rem + 1, attempt, _ =>
    match fn attempt with
    | .ok a => { result := .ok a, delays := [], calls := 1 }
    | .error e =>
      if isRetryableError e = false ∨ attempt = maxAttempts then
        { result := .error (some e), delays := [], calls := 1 }
      else
        let delay := min (initialDelay * backoffMultiplier ^ (attempt - 1)) maxDelay
        let t := retryLoop fn maxAttempts initialDelay maxDelay backoffMultiplier
          rem (attempt + 1) (some e)
        { result := t.result, delays := delay :: t.delays, calls := t.calls + 1 }

/-- Source `retryWithExponentialBackoff` (registry lines 266-317): resolve
the policy knobs against the defaults and run the 1-based retry loop,
which has `maxAttempts` iterations available. -/
def retryWithExponentialBackoff {α : Type} (fn : Nat → Except JsError α)
    (config : RetryConfig) : RetryTrace α :=
  retryLoop fn
    (config.maxAttempts.getD DEFAULT_RETRY_CONFIG.maxAttempts)
    (config.initialDelay.getD DEFAULT_RETRY_CONFIG.initialDelay)
    (config.maxDelay.getD DEFAULT_RETRY_CONFIG.maxDelay)
    (config.backoffMultiplier.getD DEFAULT_RETRY_CONFIG.backoffMultiplier)
    (config.maxAttempts.getD DEFAULT_RETRY_CONFIG.maxAttempts) 1 none

/-- Unfolding of the retry loop on a successful attempt. -/
theorem retryLoop_succ_ok {α : Type} (fn : Nat → Except JsError α)
    (A d M m rem attempt : Nat) (last : Option JsError) (a : α)
    (h : fn attempt = .ok a) :
    retryLoop fn A d M m (rem + 1) attempt last =
      { result := .ok a, delays := [], calls := 1 } := by
  rw [retryLoop, h]

/-- Unfolding of the retry loop on a failing attempt. -/
theorem retryLoop_succ_error {α : Type} (fn : Nat → Except JsError α)
    (A d M m rem attempt : Nat) (last : Option JsError) (e : JsError)
    (h : fn attempt = .error e) :
    retryLoop fn A d M m (rem + 1) attempt last =
      if isRetryableError e = false ∨ attempt = A then
        { result := .error (some e), delays := [], calls := 1 }
      else
        { result := (retryLoop fn A d M m rem (attempt + 1) (some e)).result,
          delays := min (d * m ^ (attempt - 1)) M ::
            (retryLoop fn A d M m rem (attempt + 1) (some e)).delays,
          calls := (retryLoop fn A d M m rem (attempt + 1) (some e)).calls + 1 } := by
  rw [retryLoop, h]

/-- Retry loop trace when every attempt fails with a retryable error: all
remaining attempts are used, the delays follow the exponential schedule
capped at `M`, and the error of the final attempt is the one thrown. -/
theorem retryLoop_all_fail {α : Type} (fn : Nat → Except JsError α)
    (A d M m : Nat) (e : Nat → JsError)
    (hf : ∀ k, fn k = .error (e k))
    (hr : ∀ k, isRetryableError (e k) = true) :
    ∀ (rem attempt : Nat) (last : Option JsError),
      attempt + rem = A + 1 → 1 ≤ rem → 1 ≤ attempt →
      retryLoop fn A d M m rem attempt last =
        { result := .error (some (e A)),
          delays := (List.range (rem - 1)).map fun i =>
            min (d * m ^ (attempt - 1 + i)) M,
          calls := rem } := by
  intro rem
  induction rem with
  | zero => intro attempt last _ h1 _; exact absurd h1 (by omega)
  | succ r ih =>
    intro attempt last hsum _ hatt
    rw [retryLoop_succ_error fn A d M m r attempt last (e attempt) (hf attempt)]
    cases r with
    | zero =>
      have hA : attempt = A := by omega
      rw [if_pos (Or.inr hA)]
      subst hA
      simp
    | succ r' =>
      have hne : ¬(isRetryableError (e attempt) = false ∨ attempt = A) := by
        rintro (hc | hc)
        · rw [hr attempt] at hc; exact absurd hc (by decide)
        · omega
      rw [if_neg hne,
        ih (attempt + 1) (some (e attempt)) (by omega) (by omega) (by omega)]
      have hd : (List.range (r' + 1 + 1 - 1)).map
          (fun i => min (d * m ^ (attempt - 1 + i)) M) =
          min (d * m ^ (attempt - 1)) M ::
            (List.range (r' + 1 - 1)).map
              (fun i => min (d * m ^ (attempt + 1 - 1 + i)) M) := by
        simp only [Nat.add_sub_cancel, List.range_succ_eq_map, List.map_cons,
          List.map_map]
        congr 1
        apply List.map_congr_left
        intro i _
        simp only [Function.comp_apply]
        have hexp : attempt - 1 + Nat.succ i = attempt + i := by omega
        rw [hexp]
      rw [hd]

/-- Every delay slept by the retry loop is capped by the maximum delay. -/
theorem retryLoop_delays_le {α : Type} (fn : Nat → Except JsError α)
    (A d M m : Nat) :
    ∀ (rem attempt : Nat) (last : Option JsError) (x : Nat),
      x ∈ (retryLoop fn A d M m rem attempt last).delays → x ≤ M := by
  intro rem
  induction rem with
  | zero => intro attempt last x hx; simp [retryLoop] at hx
  | succ r ih =>
    intro attempt last x hx
    cases hfn : fn attempt with
    | ok a =>
      rw [retryLoop_succ_ok fn A d M m r attempt last a hfn] at hx
      simp at hx
    | error e =>
      rw [retryLoop_succ_error fn A d M m r attempt last e hfn] at hx
      by_cases hg : isRetryableError e = false ∨ attempt = A
      · rw [if_pos hg] at hx; simp at hx
      · rw [if_neg hg] at hx
        simp only [List.mem_cons] at hx
        rcases hx with hx | hx
        · subst hx; exact Nat.min_le_right _ _
        · exact ih (attempt + 1) (some e) x hx

/-- C5: the registry retry policy: with every attempt failing retryably,
the operation is run exactly maxAttempts times (default 3), the wait
before the k-th retry is min(initialDelay * multiplier^(k-1), maxDelay)
milliseconds (with defaults: 1000 ms then 2000 ms), the last error is the
one propagated, and every delay is capped by maxDelay; a non-retryable
error propagates immediately on the first attempt. -/
theorem retryWithExponentialBackoff_policy :
    (∀ (α : Type) (fn : Nat → Except JsError α) (config : RetryConfig)
        (e : Nat → JsError),
        1 ≤ config.maxAttempts.getD 3 →
        (∀ k, fn k = .error (e k)) →
        (∀ k, isRetryableError (e k) = true) →
        retryWithExponentialBackoff fn config =
          { result := .error (some (e (config.maxAttempts.getD 3))),
            delays := (List.range (config.maxAttempts.getD 3 - 1)).map fun i =>
              min (config.initialDelay.getD 1000 *
                config.backoffMultiplier.getD 2 ^ i)
                (config.maxDelay.getD 30000),
            calls := config.maxAttempts.getD 3 }) ∧
    (∀ (α : Type) (fn : Nat → Except JsError α) (config : RetryConfig)
        (err : JsError),
        1 ≤ config.maxAttempts.getD 3 →
        fn 1 = .error err → isRetryableError err = false →
        retryWithExponentialBackoff fn config =
          { result := .error (some err), delays := [], calls := 1 }) ∧
    (∀ (α : Type) (fn : Nat → Except JsError α) (e : Nat → JsError),
        (∀ k, fn k = .error (e k)) → (∀ k, isRetryableError (e k) = true) →
        retryWithExponentialBackoff fn {} =
          { result := .error (some (e 3)), delays := [1000, 2000], calls := 3 }) ∧
    (∀ (α : Type) (fn : Nat → Except JsError α) (config : RetryConfig)
        (x : Nat), x ∈ (retryWithExponentialBackoff fn config).delays →
        x ≤ config.maxDelay.getD 30000) := by
  have main : ∀ (α : Type) (fn : Nat → Except JsError α) (config : RetryConfig)
      (e : Nat → JsError),
      1 ≤ config.maxAttempts.getD 3 →
      (∀ k, fn k = .error (e k)) →
      (∀ k, isRetryableError (e k) = true) →
      retryWithExponentialBackoff fn config =
        { result := .error (some (e (config.maxAttempts.getD 3))),
          delays := (List.range (config.maxAttempts.getD 3 - 1)).map fun i =>
            min (config.initialDelay.getD 1000 *
              config.backoffMultiplier.getD 2 ^ i)
              (config.maxDelay.getD 30000),
          calls := config.maxAttempts.getD 3 } := by
    intro α fn config e hA hf hr
    unfold retryWithExponentialBackoff DEFAULT_RETRY_CONFIG
    rw [retryLoop_all_fail fn (config.maxAttempts.getD 3)
      (config.initialDelay.getD 1000) (config.maxDelay.getD 30000)
      (config.backoffMultiplier.getD 2) e hf hr
      (config.maxAttempts.getD 3) 1 none (by omega) hA (le_refl 1)]
    have hfun : (fun i => min
        (config.initialDelay.getD 1000 *
          config.backoffMultiplier.getD 2 ^ (1 - 1 + i))
        (config.maxDelay.getD 30000)) =
        fun i => min (config.initialDelay.getD 1000 *
          config.backoffMultiplier.getD 2 ^ i) (config.maxDelay.getD 30000) := by
      funext i
      norm_num
    rw [hfun]
  refine ⟨main, ?_, ?_, ?_⟩
  · intro α fn config err hA hf hr
    unfold retryWithExponentialBackoff DEFAULT_RETRY_CONFIG
    dsimp only
    rcases hrem : config.maxAttempts.getD 3 with _ | r
    · omega
    · rw [retryLoop_succ_error fn (r + 1) (config.initialDelay.getD 1000)
        (config.maxDelay.getD 30000) (config.backoffMultiplier.getD 2)
        r 1 none err hf, if_pos (Or.inl hr)]
  · intro α fn e hf hr
    rw [main α fn {} e (by norm_num) hf hr]
    have hdl : (List.range ((({} : RetryConfig).maxAttempts.getD 3) - 1)).map
        (fun i => min ((({} : RetryConfig).initialDelay.getD 1000) *
          (({} : RetryConfig).backoffMultiplier.getD 2) ^ i)
          (({} : RetryConfig).maxDelay.getD 30000)) = [1000, 2000] := by decide
    rw [hdl]
    rfl
  · intro α fn config x hx
    unfold retryWithExponentialBackoff DEFAULT_RETRY_CONFIG at hx
    exact retryLoop_delays_le fn
      (config.maxAttempts.getD 3)
      (config.initialDelay.getD 1000)
      (config.maxDelay.getD 30000)
      (config.backoffMultiplier.getD 2)
      (config.maxAttempts.getD 3) 1 none x hx

/-- Witness for C5: the default policy on an always-failing ECONNRESET
operation runs 3 attempts with delays 1000 ms then 2000 ms and throws the
last error. -/
theorem retryWithExponentialBackoff_policy_witness :
    retryWithExponentialBackoff
        (fun _ => (.error { code := some "ECONNRESET" } : Except JsError Nat))
        {} =
      { result := .error (some { code := some "ECONNRESET" }),
        delays := [1000, 2000], calls := 3 } := by
  have hrr : isRetryableError { code := some "ECONNRESET" } = true := by decide
  exact retryWithExponentialBackoff_policy.2.2.1 Nat
    (fun _ => .error { code := some "ECONNRESET" })
    (fun _ => { code := some "ECONNRESET" })
    (fun _ => rfl) (fun _ => hrr)

/-- Split a character list at dots (kept structural so that the kernel can
evaluate the concrete scenarios). -/
def splitOnDot : List Char → List (List Char)
  | [] => [[]]
  | c :: rest =>
    let r := splitOnDot rest
    if c = '.' then [] :: r
    else
      match r with
      | [] => [[c]]
      | h :: t => (c :: h) :: t

/-- Decimal digit-list parser used by the concrete scheme fixture. -/
def digitsToNat? (cs : List Char) : Option Nat :=
  if cs.isEmpty then none
  else if cs.all Char.isDigit then
    some (cs.foldl (fun n c => n * 10 + (c.toNat - 48)) 0)
  else none

/-- Parse a plain three-component version string "x.y.z" of decimal
naturals; anything else is not a version of the fixture scheme. -/
def parseSemver? (s : String) : Option (Nat × Nat × Nat) :=
  match (splitOnDot s.toList).map digitsToNat? with
  | [some x, some y, some z] => some (x, y, z)
  | _ => none

/-- Three-way comparison of naturals as a JS comparator value. -/
def cmpNat (a b : Nat) : Int :=
  if a < b then -1 else if b < a then 1 else 0

/-- Concrete instance of the external versioning-scheme capability (spec
section 6), used to run the spec's concrete scenarios: plain "x.y.z"
versions, ordered componentwise, all stable. -/
def semverApi : VersioningApi where
  isVersion v := (parseSemver? v).isSome
  isValid v := some (parseSemver? v).isSome
  isStable _ := true
  sortVersions a b :=
    match parseSemver? a, parseSemver? b with
    | some x, some y =>
      if x.1 ≠ y.1 then cmpNat x.1 y.1
      else if x.2.1 ≠ y.2.1 then cmpNat x.2.1 y.2.1
      else cmpNat x.2.2 y.2.2
    | _, _ => 0
  getMajor v := ((parseSemver? v).map fun t => (t.1 : Int)).getD 0
  getMinor v := ((parseSemver? v).map fun t => (t.2.1 : Int)).getD 0
  getPatch v := ((parseSemver? v).map fun t => (t.2.2 : Int)).getD 0

/-- Release record with a plain string version. -/
def rel (v : String) : Release := { version := some v }

/-- Release list of spec scenario 1:
1.0.0, 1.1.0, 2.0.0, 2.1.0, 3.0.0, 3.1.0. -/
def scenarioReleases : ReleaseResult :=
  { releases := [rel "1.0.0", rel "1.1.0", rel "2.0.0", rel "2.1.0",
                 rel "3.0.0", rel "3.1.0"] }

/-- Environment for the concrete scenarios: the fixture scheme is
registered under the id "semver" and every parameterised fetch answers
with the scenario releases. -/
def scenarioEnv : Env where
  schemes := fun id => if id = "semver" then some semverApi else none
  fetch := fun _ _ _ => .ok (some scenarioReleases)
  fetchNoParams := .ok none

/-- Configuration of spec scenario 1: offset -1 at major level. -/
def scenarioConfig : ResolveConfig where
  datasource := some "npm"
  packageName := some "left-pad"
  versioning := "semver"
  constraints := some { offset := some (-1), offsetLevel := some Level.major }

/-- Cache-collision fixture: datasource "a", package "b-c". -/
def collisionConfigA : ResolveConfig where
  datasource := some "a"
  packageName := some "b-c"
  versioning := "semver"

/-- Cache-collision fixture: datasource "a-b", package "c"; a different
package, same dash-joined cache key as `collisionConfigA`. -/
def collisionConfigB : ResolveConfig where
  datasource := some "a-b"
  packageName := some "c"
  versioning := "semver"

/-- Registry data of the package of `collisionConfigA`. -/
def collisionReleasesA : ReleaseResult := { releases := [rel "2.0.0"] }

/-- Registry data of the package of `collisionConfigB`. -/
def collisionReleasesB : ReleaseResult := { releases := [rel "9.9.9"] }

/-- Environment distinguishing the two collision packages by name. -/
def collisionEnv : Env where
  schemes := fun id => if id = "semver" then some semverApi else none
  fetch := fun _ pkg _ =>
    if pkg = "b-c" then .ok (some collisionReleasesA)
    else .ok (some collisionReleasesB)
  fetchNoParams := .ok none

/-- Environment whose parameterised fetch always succeeds with an empty
release list. -/
def emptyFetchEnv : Env where
  schemes := fun id => if id = "semver" then some semverApi else none
  fetch := fun _ _ _ => .ok (some { releases := [] })
  fetchNoParams := .ok none

/-- Plain configuration pointing the empty-fetch environment at a
package. -/
def emptyFetchConfig : ResolveConfig where
  datasource := some "npm"
  packageName := some "nothing"
  versioning := "semver"

/-- A resolved offset of zero means the positive-offset validation cannot
fire. -/
theorem hasPositiveOffset_of_offsetOf_zero {config : ResolveConfig}
    (h : offsetOf config = 0) : hasPositiveOffset config = false := by
  unfold hasPositiveOffset
  unfold offsetOf at h
  cases hb : config.constraints.bind (·.offset) with
  | none => rfl
  | some o => rw [hb] at h; simp at h; simp [h]

/-- When the positive-offset validation does not fire, the resolved offset
is nonpositive. -/
theorem offsetOf_nonpos {config : ResolveConfig}
    (h : hasPositiveOffset config = false) : offsetOf config ≤ 0 := by
  unfold hasPositiveOffset at h
  unfold offsetOf
  cases hb : config.constraints.bind (·.offset) with
  | none => simp
  | some o => rw [hb] at h; simp at h; simpa using h

/-- C1: for every input configuration and environment behaviour,
`getNewValue` reaches a defined string answer exactly when the requested
versioning-scheme id is registered; no data-quality problem (fetch
failure, null or empty release list, malformed versions, out-of-range
offsets) can surface as an exception, and an unregistered scheme id is the
one exception path. -/
theorem getNewValue_total_iff (env : Env) (now : Nat) (cache : Cache)
    (currentValue rangeStrategy currentVersion : String)
    (config : ResolveConfig) :
    (∃ out, getNewValue env now cache currentValue rangeStrategy
        currentVersion config = .ok out) ↔
      (env.schemes config.versioning).isSome := by
  unfold getNewValue
  cases h : env.schemes config.versioning <;> simp

/-- C3: a configuration whose constraints carry a positive offset is
rejected by the validation before the fetch block: the caller's current
value comes back, the cache is untouched, and the registry is never
invoked. -/
theorem getNewValue_positive_offset (env : Env) (now : Nat) (cache : Cache)
    (currentValue rangeStrategy currentVersion : String)
    (config : ResolveConfig) (c : Constraints) (o : Int)
    (versioning : VersioningApi)
    (hs : env.schemes config.versioning = some versioning)
    (hc : config.constraints = some c) (ho : c.offset = some o)
    (hpos : 0 < o) :
    getNewValue env now cache currentValue rangeStrategy currentVersion
      config = .ok (currentValue, cache, 0) := by
  unfold getNewValue
  rw [hs]
  have hp : hasPositiveOffset config = true := by
    unfold hasPositiveOffset
    rw [hc]
    simp [Option.bind, ho, hpos]
  unfold getNewValueWith
  rw [hp]
  simp

/-- Witness for C3 at a concrete positive offset. -/
theorem getNewValue_positive_offset_witness :
    getNewValue scenarioEnv 0 [] "1.0.0" "replace" "1.0.0"
      { datasource := some "npm", packageName := some "x",
        versioning := "semver",
        constraints := some { offset := some 1 } } =
      .ok ("1.0.0", [], 0) :=
  getNewValue_positive_offset scenarioEnv 0 [] "1.0.0" "replace" "1.0.0"
    _ _ 1 semverApi rfl rfl rfl (by decide)

theorem getLast?_mem {α : Type} : ∀ {l : List α} {a : α},
    l.getLast? = some a → a ∈ l := by
  intro l
  induction l with
  | nil => intro a h; simp at h
  | cons x xs ih =>
    intro a h
    cases xs with
    | nil => simp at h; simp [h]
    | cons y ys =>
      rw [List.getLast?_cons_cons] at h
      exact List.mem_cons_of_mem x (ih h)

theorem getLastD_mem {α : Type} {l : List α} (d : α) (h : l ≠ []) :
    l.getLastD d ∈ l := by
  rw [List.getLastD_eq_getLast?]
  cases hl : l.getLast? with
  | none => rw [List.getLast?_eq_none_iff] at hl; exact absurd hl h
  | some a => simpa using getLast?_mem hl

theorem getD_mem {α : Type} : ∀ {l : List α} {i : Nat} (d : α),
    i < l.length → l.getD i d ∈ l := by
  intro l
  induction l with
  | nil => intro i d h; simp at h
  | cons x xs ih =>
    intro i d h
    cases i with
    | zero => simp
    | succ n =>
      simp only [List.getD_cons_succ]
      exact List.mem_cons_of_mem x (ih d (Nat.lt_of_succ_lt_succ h))

theorem assocFind_mem : ∀ {groups : Groups} {key : GroupKey}
    {vs : List String}, assocFind groups key = some vs → (key, vs) ∈ groups := by
  intro groups
  induction groups with
  | nil => intro key vs h; simp [assocFind] at h
  | cons p rest ih =>
    intro key vs h
    obtain ⟨k, ws⟩ := p
    rw [assocFind] at h
    split at h
    · rename_i hk
      obtain rfl : ws = vs := Option.some.injEq _ _ ▸ h
      subst hk
      exact List.mem_cons_self _ _
    · exact List.mem_cons_of_mem _ (ih h)

/-- Dissection of group membership after one push: a member either was
already in a group of the same key, or is the pushed version in the pushed
key's group. -/
theorem mem_addToGroup : ∀ {gs : Groups} {key : GroupKey} {x : String}
    {k : GroupKey} {vs : List String},
    (k, vs) ∈ addToGroup gs key x → ∀ v ∈ vs,
      (∃ vs₀, (k, vs₀) ∈ gs ∧ v ∈ vs₀) ∨ (k = key ∧ v = x) := by
  intro gs
  induction gs with
  | nil =>
    intro key x k vs h v hv
    simp [addToGroup] at h
    obtain ⟨hk, hvs⟩ := h
    subst hk; subst hvs
    simp at hv
    exact Or.inr ⟨rfl, hv⟩
  | cons p rest ih =>
    intro key x k vs h v hv
    obtain ⟨k₁, vs₁⟩ := p
    rw [addToGroup] at h
    split at h
    · rename_i hk1
      rcases List.mem_cons.mp h with hh | hh
      · simp only [Prod.mk.injEq] at hh
        obtain ⟨hk, hvs⟩ := hh
        subst hk
        rw [hvs] at hv
        rcases List.mem_append.mp hv with hvv | hvv
        · exact Or.inl ⟨vs₁, List.mem_cons_self _ _, hvv⟩
        · simp at hvv
          exact Or.inr ⟨hk1, hvv⟩
      · exact Or.inl ⟨vs, List.mem_cons_of_mem _ hh, hv⟩
    · rcases List.mem_cons.mp h with hh | hh
      · exact Or.inl ⟨vs, hh ▸ List.mem_cons_self _ _, hv⟩
      · rcases ih hh v hv with ⟨vs₀, hmem, hv₀⟩ | hr
        · exact Or.inl ⟨vs₀, List.mem_cons_of_mem _ hmem, hv₀⟩
        · exact Or.inr hr

/-- Invariant of the grouping fold: every member of every group either was
in the starting record or is a recognised version of the processed list
filed under its own key. -/
theorem foldl_group_mem (versioning : VersioningApi) (level : Level) :
    ∀ (l : List String) (gs : Groups) (k : GroupKey) (vs : List String),
      (k, vs) ∈ l.foldl
        (fun gs v =>
          if versioning.isVersion v then
            addToGroup gs (groupKeyFor versioning level v) v
          else gs) gs →
      ∀ v ∈ vs,
        (∃ vs₀, (k, vs₀) ∈ gs ∧ v ∈ vs₀) ∨
        (versioning.isVersion v = true ∧
          groupKeyFor versioning level v = k ∧ v ∈ l) := by
  intro l
  induction l with
  | nil =>
    intro gs k vs h v hv
    exact Or.inl ⟨vs, h, hv⟩
  | cons x xs ih =>
    intro gs k vs h v hv
    rw [List.foldl_cons] at h
    rcases ih _ k vs h v hv with ⟨vs₀, hmem, hv₀⟩ | ⟨hver, hkey, hmem⟩
    · by_cases hx : versioning.isVersion x
      · rw [if_pos hx] at hmem
        rcases mem_addToGroup hmem v hv₀ with h1 | ⟨hk, hvx⟩
        · exact Or.inl h1
        · subst hvx
          exact Or.inr ⟨hx, hk.symm, List.mem_cons_self _ _⟩
      · rw [if_neg hx] at hmem
        exact Or.inl ⟨vs₀, hmem, hv₀⟩
    · exact Or.inr ⟨hver, hkey, List.mem_cons_of_mem _ hmem⟩

/-- Every member of a semver group is a recognised version of the grouped
list and carries the group's key. -/
theorem mem_groupVersionsBySemverLevel
    {versions : List String} {versioning : VersioningApi} {level : Level}
    {k : GroupKey} {vs : List String}
    (h : (k, vs) ∈ groupVersionsBySemverLevel versions versioning level) :
    ∀ v ∈ vs, versioning.isVersion v = true ∧
      groupKeyFor versioning level v = k ∧ v ∈ versions := by
  intro v hv
  unfold groupVersionsBySemverLevel at h
  rw [List.mem_map] at h
  obtain ⟨⟨k₀, vs₀⟩, hmem, heq⟩ := h
  simp only [Prod.mk.injEq] at heq
  obtain ⟨hk, hvs⟩ := heq
  rw [hk] at hmem
  have hv₀ : v ∈ vs₀ := by
    rw [← hvs] at hv
    by_cases h1 : 1 < vs₀.length
    · rw [if_pos h1] at hv; exact mem_jsSortBy.mp hv
    · rw [if_neg h1] at hv; exact hv
  rcases foldl_group_mem versioning level versions [] k vs₀ hmem v hv₀ with
    ⟨vs₁, hmem₁, _⟩ | hr
  · simp at hmem₁
  · exact hr

theorem addToGroup_length (gs : Groups) (key : GroupKey) (x : String) :
    (addToGroup gs key x).length ≤ gs.length + 1 := by
  induction gs with
  | nil => simp [addToGroup]
  | cons p rest ih =>
    obtain ⟨k, vs⟩ := p
    rw [addToGroup]
    split
    · simp
    · simp only [List.length_cons]
      omega

theorem foldl_group_length (versioning : VersioningApi) (level : Level) :
    ∀ (l : List String) (gs : Groups),
      (l.foldl
        (fun gs v =>
          if versioning.isVersion v then
            addToGroup gs (groupKeyFor versioning level v) v
          else gs) gs).length ≤ gs.length + l.length := by
  intro l
  induction l with
  | nil => intro gs; simp
  | cons x xs ih =>
    intro gs
    rw [List.foldl_cons]
    refine le_trans (ih _) ?_
    have hstep : (if versioning.isVersion x then
        addToGroup gs (groupKeyFor versioning level x) x else gs).length ≤
        gs.length + 1 := by
      split
      · exact addToGroup_length _ _ _
      · omega
    simp only [List.length_cons]
    omega

/-- There are never more semver groups than grouped versions. -/
theorem groupVersionsBySemverLevel_length (versions : List String)
    (versioning : VersioningApi) (level : Level) :
    (groupVersionsBySemverLevel versions versioning level).length ≤
      versions.length := by
  unfold groupVersionsBySemverLevel
  rw [List.length_map]
  simpa using foldl_group_length versioning level versions []

/-- Dissection of the offset-selection tail of `getVersionFromSemverGroups`
over an arbitrary filtered key list `fl` (the part after the emptiness
test). -/
theorem groupedPickTail_some {groups : Groups} {fl : List GroupKey}
    {offset : Int} {r : String}
    (h : (if (fl.length : Int) - 1 + offset < 0 ∨
            (fl.length : Int) ≤ (fl.length : Int) - 1 + offset then
        (none : Option String)
      else
        match assocFind groups
            (fl.getD ((fl.length : Int) - 1 + offset).toNat []) with
        | some targetGroup => targetGroup.getLast?
        | none => none) = some r) :
    ∃ key vs, key ∈ fl ∧ assocFind groups key = some vs ∧
      vs.getLast? = some r ∧ 0 ≤ (fl.length : Int) - 1 + offset := by
  by_cases h2 : (fl.length : Int) - 1 + offset < 0 ∨
      (fl.length : Int) ≤ (fl.length : Int) - 1 + offset
  · rw [if_pos h2] at h; exact absurd h (by simp)
  rw [if_neg h2] at h
  push_neg at h2
  cases hfind : assocFind groups
      (fl.getD ((fl.length : Int) - 1 + offset).toNat []) with
  | none => rw [hfind] at h; exact absurd h (by simp)
  | some vs =>
    rw [hfind] at h
    have hlast : vs.getLast? = some r := h
    have hidx : ((fl.length : Int) - 1 + offset).toNat < fl.length := by omega
    exact ⟨_, vs, getD_mem ([] : GroupKey) hidx, hfind, hlast, by omega⟩

/-- Dissection of the offset-selection tail including the emptiness
test. -/
theorem groupedPick_some {groups : Groups} {fl : List GroupKey}
    {offset : Int} {r : String}
    (h : (if fl.length = 0 then (none : Option String)
      else
        if (fl.length : Int) - 1 + offset < 0 ∨
            (fl.length : Int) ≤ (fl.length : Int) - 1 + offset then none
        else
          match assocFind groups
              (fl.getD ((fl.length : Int) - 1 + offset).toNat []) with
          | some targetGroup => targetGroup.getLast?
          | none => none) = some r) :
    ∃ key vs, key ∈ fl ∧ assocFind groups key = some vs ∧
      vs.getLast? = some r ∧ 0 ≤ (fl.length : Int) - 1 + offset := by
  by_cases h0 : fl.length = 0
  · rw [if_pos h0] at h; exact absurd h (by simp)
  rw [if_neg h0] at h
  exact groupedPickTail_some h

/-- Dissection of a successful grouped selection: the answer is the last
member of the group of a key that survived the sibling filter, the offset
magnitude is below the number of groups, and at minor/patch level that key
carries the current version's major (and minor) component. -/
theorem getVersionFromSemverGroups_some
    {groups : Groups} {versioning : VersioningApi} {offset : Int}
    {level : Level} {currentVersion : String} {r : String}
    (h : getVersionFromSemverGroups groups versioning offset level
      currentVersion = some r) :
    ∃ key vs, key ∈ groups.map Prod.fst ∧
      (level = Level.minor →
        key.head? = some (versioning.getMajor currentVersion)) ∧
      (level = Level.patch →
        key.head? = some (versioning.getMajor currentVersion) ∧
        key.get? 1 = some (versioning.getMinor currentVersion)) ∧
      assocFind groups key = some vs ∧ vs.getLast? = some r ∧
      -(groups.length : Int) < offset := by
  have hgk : ∀ cmp : GroupKey → GroupKey → Int,
      (jsSortBy cmp (groups.map Prod.fst)).length = groups.length := by
    intro cmp
    rw [jsSortBy_length, List.length_map]
  cases level with
  | major =>
    simp only [getVersionFromSemverGroups] at h
    split at h
    · exact absurd h (by simp)
    obtain ⟨key, vs, hkm, hfind, hlast, hpos⟩ := groupedPickTail_some h
    have hlen := hgk fun a b =>
      versioning.sortVersions (lastOfGroup groups a) (lastOfGroup groups b)
    rw [hlen] at hpos
    exact ⟨key, vs, mem_jsSortBy.mp hkm, by simp, by simp, hfind, hlast,
      by omega⟩
  | minor =>
    simp only [getVersionFromSemverGroups] at h
    split at h
    · exact absurd h (by simp)
    obtain ⟨key, vs, hkm, hfind, hlast, hpos⟩ := groupedPick_some h
    have hfilt := List.mem_filter.mp hkm
    have hle := List.length_filter_le
      (fun (key : GroupKey) =>
        key.head? == some (versioning.getMajor currentVersion))
      (jsSortBy (fun a b => versioning.sortVersions (lastOfGroup groups a)
        (lastOfGroup groups b)) (groups.map Prod.fst))
    rw [hgk] at hle
    refine ⟨key, vs, mem_jsSortBy.mp hfilt.1, fun _ => ?_, by simp, hfind,
      hlast, by omega⟩
    exact beq_iff_eq.mp hfilt.2
  | patch =>
    simp only [getVersionFromSemverGroups] at h
    split at h
    · exact absurd h (by simp)
    obtain ⟨key, vs, hkm, hfind, hlast, hpos⟩ := groupedPick_some h
    have hfilt := List.mem_filter.mp hkm
    have hle := List.length_filter_le
      (fun (key : GroupKey) =>
        key.head? == some (versioning.getMajor currentVersion) &&
        key.get? 1 == some (versioning.getMinor currentVersion))
      (jsSortBy (fun a b => versioning.sortVersions (lastOfGroup groups a)
        (lastOfGroup groups b)) (groups.map Prod.fst))
    rw [hgk] at hle
    refine ⟨key, vs, mem_jsSortBy.mp hfilt.1, by simp, fun _ => ?_, hfind,
      hlast, by omega⟩
    have hpred := hfilt.2
    simp only [Bool.and_eq_true, beq_iff_eq] at hpred
    exact hpred

/-- When the offset magnitude reaches the number of groups, the grouped
selection makes no choice. -/
theorem getVersionFromSemverGroups_offset_out
    (groups : Groups) (versioning : VersioningApi) (offset : Int)
    (level : Level) (currentVersion : String)
    (h : offset + (groups.length : Int) ≤ 0) :
    getVersionFromSemverGroups groups versioning offset level
      currentVersion = none := by
  cases hres : getVersionFromSemverGroups groups versioning offset level
      currentVersion with
  | none => rfl
  | some r =>
    obtain ⟨key, vs, hmem, hmi, hpa, hfind, hlast, hbound⟩ :=
      getVersionFromSemverGroups_some hres
    omega

/-- Inversion of the validity filter: a surviving version is the version
field of one of the releases, non-empty, and accepted by `isValid`. -/
theorem mem_filterValidVersions {versioning : VersioningApi}
    {releases : List Release} {v : String}
    (h : v ∈ filterValidVersions versioning releases) :
    (∃ r ∈ releases, r.version = some v) ∧
      v.isEmpty = false ∧ versioning.isValid v = some true := by
  unfold filterValidVersions at h
  rw [List.mem_filterMap] at h
  obtain ⟨r, hr, hf⟩ := h
  cases hver : r.version with
  | none => rw [hver] at hf; simp at hf
  | some w =>
    rw [hver] at hf
    dsimp only at hf
    by_cases hw : w.isEmpty
    · simp [hw] at hf
    rw [if_neg hw] at hf
    cases hvalid : versioning.isValid w with
    | none => rw [hvalid] at hf; simp at hf
    | some b =>
      rw [hvalid] at hf
      cases b with
      | false => simp at hf
      | true =>
        have hw' : w = v := by simpa using hf
        subst hw'
        exact ⟨⟨r, hr, hver⟩, by simpa using hw, hvalid⟩

/-- Inversion of the combined validity and prerelease filter. -/
theorem mem_stableFiltered {versioning : VersioningApi}
    {config : ResolveConfig} {releases : List Release} {v : String}
    (h : v ∈ stableFiltered versioning config releases) :
    (∃ r ∈ releases, r.version = some v) ∧
      v.isEmpty = false ∧ versioning.isValid v = some true ∧
      (ignorePrereleaseOf config = true → versioning.isStable v = true) := by
  unfold stableFiltered at h
  by_cases hip : ignorePrereleaseOf config
  · rw [if_pos hip] at h
    have hm := List.mem_filter.mp h
    obtain ⟨hrel, hne, hvalid⟩ := mem_filterValidVersions hm.1
    exact ⟨hrel, hne, hvalid, fun _ => hm.2⟩
  · rw [if_neg hip] at h
    obtain ⟨hrel, hne, hvalid⟩ := mem_filterValidVersions h
    exact ⟨hrel, hne, hvalid,
      fun hc => absurd hc (by simpa using hip)⟩

/-- Unfolding of `selectNewValue` on a present release set, phrased over
the named pipeline stages. -/
theorem selectNewValue_some (versioning : VersioningApi)
    (config : ResolveConfig) (currentValue currentVersion : String)
    (vr : ReleaseResult) :
    selectNewValue versioning config currentValue currentVersion (some vr) =
      if vr.releases.length = 0 then currentValue
      else if (stableFiltered versioning config vr.releases).length = 0 then
        currentValue
      else if (sortedOf versioning config vr).length = 0 then currentValue
      else if offsetOf config = 0 then
        (sortedOf versioning config vr).getLastD ""
      else
        match offsetLevelOf config with
        | some level =>
          (match getVersionFromSemverGroups
              (groupVersionsBySemverLevel (sortedOf versioning config vr)
                versioning level)
              versioning (offsetOf config) level currentVersion with
          | some result =>
            if result.isEmpty then currentValue else result
          | none => currentValue)
        | none =>
          if ((sortedOf versioning config vr).length : Int) - 1 +
                offsetOf config < 0 ∨
              ((sortedOf versioning config vr).length : Int) ≤
                ((sortedOf versioning config vr).length : Int) - 1 +
                  offsetOf config then currentValue
          else
            (sortedOf versioning config vr).getD
              (((sortedOf versioning config vr).length : Int) - 1 +
                offsetOf config).toNat "" := rfl

/-- The string a selection produces is the caller's current value or a
member of the filtered, sorted version list. -/
theorem selectNewValue_eq_or_mem (versioning : VersioningApi)
    (config : ResolveConfig) (currentValue currentVersion : String)
    (versions : Option ReleaseResult) :
    selectNewValue versioning config currentValue currentVersion versions =
      currentValue ∨
    ∃ vr, versions = some vr ∧
      selectNewValue versioning config currentValue currentVersion versions ∈
        sortedOf versioning config vr := by
  cases versions with
  | none => exact Or.inl rfl
  | some vr =>
    rw [selectNewValue_some]
    by_cases h1 : vr.releases.length = 0
    · rw [if_pos h1]; exact Or.inl rfl
    rw [if_neg h1]
    by_cases h2 : (stableFiltered versioning config vr.releases).length = 0
    · rw [if_pos h2]; exact Or.inl rfl
    rw [if_neg h2]
    by_cases h3 : (sortedOf versioning config vr).length = 0
    · rw [if_pos h3]; exact Or.inl rfl
    rw [if_neg h3]
    have hne : sortedOf versioning config vr ≠ [] := by
      intro hc
      exact h3 (by rw [hc]; rfl)
    by_cases h4 : offsetOf config = 0
    · rw [if_pos h4]
      exact Or.inr ⟨vr, rfl, getLastD_mem _ hne⟩
    rw [if_neg h4]
    cases hl : offsetLevelOf config with
    | some level =>
      dsimp only
      cases hg : getVersionFromSemverGroups
          (groupVersionsBySemverLevel (sortedOf versioning config vr)
            versioning level)
          versioning (offsetOf config) level currentVersion with
      | none => exact Or.inl rfl
      | some result =>
        dsimp only
        by_cases he : result.isEmpty
        · rw [if_pos he]; exact Or.inl rfl
        rw [if_neg he]
        refine Or.inr ⟨vr, rfl, ?_⟩
        obtain ⟨key, vs, hkm, _, _, hfind, hlast, _⟩ :=
          getVersionFromSemverGroups_some hg
        exact (mem_groupVersionsBySemverLevel (assocFind_mem hfind) result
          (getLast?_mem hlast)).2.2
    | none =>
      dsimp only
      by_cases h5 : ((sortedOf versioning config vr).length : Int) - 1 +
            offsetOf config < 0 ∨
          ((sortedOf versioning config vr).length : Int) ≤
            ((sortedOf versioning config vr).length : Int) - 1 +
              offsetOf config
      · rw [if_pos h5]; exact Or.inl rfl
      · rw [if_neg h5]
        push_neg at h5
        exact Or.inr ⟨vr, rfl, getD_mem _ (by omega)⟩

/-- Unfolding of `getNewValue` when the scheme is registered, the
positive-offset validation passes, and the fetch block does not throw. -/
theorem getNewValue_eq_ok {env : Env} {now : Nat} {cache : Cache}
    {currentValue rangeStrategy currentVersion : String}
    {config : ResolveConfig} {versioning : VersioningApi}
    {versions : Option ReleaseResult}
    (hs : env.schemes config.versioning = some versioning)
    (hpo : hasPositiveOffset config = false)
    (hfr : (fetchVersions env now cache config).versions = .ok versions) :
    getNewValue env now cache currentValue rangeStrategy currentVersion
      config =
      .ok (selectNewValue versioning config currentValue currentVersion
          versions,
        (fetchVersions env now cache config).cache,
        (fetchVersions env now cache config).fetchCount) := by
  simp only [getNewValue, getNewValueWith, hs, hpo, Bool.false_eq_true,
    if_false, hfr]

/-- A fresh cache entry is found by a lookup within its TTL. -/
theorem memGet_memSet_fresh (cache : Cache) (ns key : String)
    (v : ReleaseResult) (ttl now now' : Nat) (h : now' < now + ttl) :
    memGet (memSet cache ns key v ttl now) ns key now' = some v := by
  simp [memGet, memSet, h]

/-- C4 counterexample: a successful fetch whose release list is empty is
not stored in the cache, so a subsequent call with the same key within the
15-minute TTL invokes the registry again: both calls report one registry
invocation and leave the cache empty. -/
theorem getNewValue_cache_counterexample :
    getNewValue emptyFetchEnv 0 [] "1.0.0" "replace" "1.0.0"
        emptyFetchConfig = .ok ("1.0.0", [], 1) ∧
    getNewValue emptyFetchEnv 1 [] "1.0.0" "replace" "1.0.0"
        emptyFetchConfig = .ok ("1.0.0", [], 1) := by
  exact ⟨by decide, by decide⟩

/-- C4 (amended): after a successful fetch whose release list is
non-empty, the result is cached under the dash-joined
(datasource, packageName, schemeId) key with a 15-minute TTL, and any
subsequent call with the same configuration within the TTL answers
identically from the cache with zero registry invocations. -/
theorem getNewValue_cache_behaviour
    (env : Env) (now : Nat) (cache : Cache)
    (currentValue rangeStrategy currentVersion : String)
    (config : ResolveConfig) (versioning : VersioningApi) (vr : ReleaseResult)
    (v1 : String) (cache1 : Cache) (n1 : Nat) (now' : Nat)
    (hs : env.schemes config.versioning = some versioning)
    (hpo : hasPositiveOffset config = false)
    (hds : isFalsyStr config.datasource = false)
    (hpk : isFalsyStr config.packageName = false)
    (hmiss : memGet cache cacheNamespace (cacheKeyOf config) now = none)
    (hfetch : env.fetch (jsTemplateStr config.datasource)
      (jsTemplateStr config.packageName) config.versioning = .ok (some vr))
    (hnz : vr.releases.length ≠ 0)
    (h1 : getNewValue env now cache currentValue rangeStrategy currentVersion
      config = .ok (v1, cache1, n1))
    (hfresh : now' < now + 15) :
    n1 = 1 ∧
    cache1 = memSet cache cacheNamespace (cacheKeyOf config) vr 15 now ∧
    memGet cache1 cacheNamespace (cacheKeyOf config) now' = some vr ∧
    getNewValue env now' cache1 currentValue rangeStrategy currentVersion
      config = .ok (v1, cache1, 0) := by
  have hfr : fetchVersions env now cache config =
      { versions := .ok (some vr),
        cache := memSet cache cacheNamespace (cacheKeyOf config) vr 15 now,
        fetchCount := 1 } := by
    unfold fetchVersions
    simp only [hds, hpk, Bool.or_self, Bool.false_eq_true, if_false, hmiss,
      hfetch, hnz, ite_not, if_neg]
  have hcall : getNewValue env now cache currentValue rangeStrategy
      currentVersion config =
      .ok (selectNewValue versioning config currentValue currentVersion
          (some vr),
        memSet cache cacheNamespace (cacheKeyOf config) vr 15 now, 1) := by
    simp only [getNewValue, getNewValueWith, hs, hpo, Bool.false_eq_true,
      if_false, hfr]
  rw [hcall] at h1
  simp only [Except.ok.injEq, Prod.mk.injEq] at h1
  obtain ⟨hv, hc, hn⟩ := h1
  have hhit : memGet cache1 cacheNamespace (cacheKeyOf config) now' = some vr := by
    rw [← hc]
    exact memGet_memSet_fresh cache cacheNamespace (cacheKeyOf config) vr 15
      now now' hfresh
  have hfr2 : fetchVersions env now' cache1 config =
      { versions := .ok (some vr), cache := cache1, fetchCount := 0 } := by
    unfold fetchVersions
    simp only [hds, hpk, Bool.or_self, Bool.false_eq_true, if_false, hhit]
  have hcall2 : getNewValue env now' cache1 currentValue rangeStrategy
      currentVersion config =
      .ok (selectNewValue versioning config currentValue currentVersion
          (some vr), cache1, 0) := by
    simp only [getNewValue, getNewValueWith, hs, hpo, Bool.false_eq_true,
      if_false, hfr2]
  exact ⟨hn.symm, hc.symm, hhit, by rw [hcall2, hv]⟩

/-- Witness for C4 (amended): the scenario configuration fetched at time 0
is cached and a call at time 14 answers from the cache with no registry
invocation. -/
theorem getNewValue_cache_behaviour_witness :
    1 = 1 ∧
    memSet [] cacheNamespace (cacheKeyOf scenarioConfig) scenarioReleases
        15 0 =
      memSet [] cacheNamespace (cacheKeyOf scenarioConfig) scenarioReleases
        15 0 ∧
    memGet (memSet [] cacheNamespace (cacheKeyOf scenarioConfig)
        scenarioReleases 15 0) cacheNamespace (cacheKeyOf scenarioConfig) 14 =
      some scenarioReleases ∧
    getNewValue scenarioEnv 14
        (memSet [] cacheNamespace (cacheKeyOf scenarioConfig)
          scenarioReleases 15 0)
        "3.1.0" "replace" "3.1.0" scenarioConfig =
      .ok ("2.1.0",
        memSet [] cacheNamespace (cacheKeyOf scenarioConfig) scenarioReleases
          15 0, 0) :=
  getNewValue_cache_behaviour scenarioEnv 0 [] "3.1.0" "replace" "3.1.0"
    scenarioConfig semverApi scenarioReleases "2.1.0"
    (memSet [] cacheNamespace (cacheKeyOf scenarioConfig) scenarioReleases
      15 0) 1 14
    rfl (by decide) (by decide) (by decide) (by decide) (by decide)
    (by decide) (by decide) (by decide)

/-- C9: the dash-joined cache key is not injective: the two distinct
(datasource, packageName, schemeId) triples of `collisionConfigA` and
`collisionConfigB` share the key "a-b-c-semver", and a resolution for the
second package answers with the release set cached for the first (cache
hit, no fetch), although its own registry data (`collisionReleasesB`)
would select the different version "9.9.9". -/
theorem cacheKey_not_injective :
    cacheKeyOf collisionConfigA = cacheKeyOf collisionConfigB ∧
    collisionConfigA ≠ collisionConfigB ∧
    getNewValue collisionEnv 0 [] "1.0.0" "replace" "1.0.0"
        collisionConfigA =
      .ok ("2.0.0",
        memSet [] cacheNamespace "a-b-c-semver" collisionReleasesA 15 0, 1) ∧
    getNewValue collisionEnv 0
        (memSet [] cacheNamespace "a-b-c-semver" collisionReleasesA 15 0)
        "1.0.0" "replace" "1.0.0" collisionConfigB =
      .ok ("2.0.0",
        memSet [] cacheNamespace "a-b-c-semver" collisionReleasesA 15 0, 0) ∧
    selectNewValue semverApi collisionConfigB "1.0.0" "1.0.0"
        (some collisionReleasesB) = "9.9.9" := by
  refine ⟨by decide, by decide, by decide, by decide, by decide⟩

/-- Unfolding of `getNewValue` when the positive-offset validation
fires. -/
theorem getNewValue_eq_validation {env : Env} {now : Nat} {cache : Cache}
    {currentValue rangeStrategy currentVersion : String}
    {config : ResolveConfig} {versioning : VersioningApi}
    (hs : env.schemes config.versioning = some versioning)
    (hpo : hasPositiveOffset config = true) :
    getNewValue env now cache currentValue rangeStrategy currentVersion
      config = .ok (currentValue, cache, 0) := by
  simp only [getNewValue, getNewValueWith, hs, hpo, if_true]

/-- Unfolding of `getNewValue` when the fetch block throws. -/
theorem getNewValue_eq_err {env : Env} {now : Nat} {cache : Cache}
    {currentValue rangeStrategy currentVersion : String}
    {config : ResolveConfig} {versioning : VersioningApi} {e : Unit}
    (hs : env.schemes config.versioning = some versioning)
    (hpo : hasPositiveOffset config = false)
    (hfr : (fetchVersions env now cache config).versions = .error e) :
    getNewValue env now cache currentValue rangeStrategy currentVersion
      config =
      .ok (currentValue, (fetchVersions env now cache config).cache,
        (fetchVersions env now cache config).fetchCount) := by
  simp only [getNewValue, getNewValueWith, hs, hpo, Bool.false_eq_true,
    if_false, hfr]

/-- Filtering an empty release list yields the empty list. -/
theorem stableFiltered_nil (versioning : VersioningApi)
    (config : ResolveConfig) : stableFiltered versioning config [] = [] := by
  unfold stableFiltered filterValidVersions
  simp

/-- A non-empty sorted pipeline forces every emptiness guard of the
selection to pass. -/
theorem pipeline_nonempty {versioning : VersioningApi}
    {config : ResolveConfig} {vr : ReleaseResult}
    (hne : sortedOf versioning config vr ≠ []) :
    ¬vr.releases.length = 0 ∧
    ¬(stableFiltered versioning config vr.releases).length = 0 ∧
    ¬(sortedOf versioning config vr).length = 0 := by
  have h3 : ¬(sortedOf versioning config vr).length = 0 := by
    intro hc
    exact hne (List.length_eq_zero.mp hc)
  have h2 : ¬(stableFiltered versioning config vr.releases).length = 0 := by
    intro hc
    apply h3
    unfold sortedOf
    rw [jsSortBy_length]
    exact hc
  have h1 : ¬vr.releases.length = 0 := by
    intro hc
    apply h2
    rw [List.length_eq_zero.mp hc, stableFiltered_nil]
    rfl
  exact ⟨h1, h2, h3⟩

/-- C7: with a resolved offset of zero (offset absent or offset = 0), a
resolution whose fetch succeeds and whose filtered, sorted version list is
non-empty answers the last (latest) element of that list, whatever value
offsetLevel has. -/
theorem getNewValue_offset_zero (env : Env) (now : Nat) (cache : Cache)
    (currentValue rangeStrategy currentVersion : String)
    (config : ResolveConfig) (versioning : VersioningApi) (vr : ReleaseResult)
    (hs : env.schemes config.versioning = some versioning)
    (hfr : (fetchVersions env now cache config).versions = .ok (some vr))
    (hne : sortedOf versioning config vr ≠ [])
    (hoff : offsetOf config = 0) :
    getNewValue env now cache currentValue rangeStrategy currentVersion
      config =
      .ok ((sortedOf versioning config vr).getLastD "",
        (fetchVersions env now cache config).cache,
        (fetchVersions env now cache config).fetchCount) := by
  obtain ⟨h1, h2, h3⟩ := pipeline_nonempty hne
  have hsel : selectNewValue versioning config currentValue currentVersion
      (some vr) = (sortedOf versioning config vr).getLastD "" := by
    rw [selectNewValue_some, if_neg h1, if_neg h2, if_neg h3, if_pos hoff]
  rw [getNewValue_eq_ok hs (hasPositiveOffset_of_offsetOf_zero hoff) hfr,
    hsel]

/-- Offset-zero configuration exercising an ignored offsetLevel. -/
def offsetZeroConfig : ResolveConfig where
  datasource := some "npm"
  packageName := some "left-pad"
  versioning := "semver"
  constraints := some { offset := some 0, offsetLevel := some Level.minor }

/-- Witness for C7: offset 0 with an offsetLevel still answers the latest
version 3.1.0 of the scenario releases. -/
theorem getNewValue_offset_zero_witness :
    getNewValue scenarioEnv 0 [] "1.0.0" "replace" "1.0.0"
        offsetZeroConfig =
      .ok ((sortedOf semverApi offsetZeroConfig scenarioReleases).getLastD "",
        (fetchVersions scenarioEnv 0 [] offsetZeroConfig).cache,
        (fetchVersions scenarioEnv 0 [] offsetZeroConfig).fetchCount) :=
  getNewValue_offset_zero scenarioEnv 0 [] "1.0.0" "replace" "1.0.0"
    offsetZeroConfig semverApi scenarioReleases rfl (by decide) (by decide)
    (by decide)

/-- C10: a returned string that differs from the caller's current value is
the version field of one of the releases the fetch block produced, is a
non-empty string accepted by the scheme's isValid, and, unless
ignorePrerelease is explicitly false, is accepted by isStable; the
resolver never synthesizes a version absent from the registry response. -/
theorem getNewValue_result_from_registry (env : Env) (now : Nat)
    (cache : Cache) (currentValue rangeStrategy currentVersion : String)
    (config : ResolveConfig) (versioning : VersioningApi)
    (v : String) (c : Cache) (n : Nat)
    (hs : env.schemes config.versioning = some versioning)
    (h : getNewValue env now cache currentValue rangeStrategy currentVersion
      config = .ok (v, c, n))
    (hv : v ≠ currentValue) :
    ∃ vr, (fetchVersions env now cache config).versions = .ok (some vr) ∧
      (∃ r ∈ vr.releases, r.version = some v) ∧
      v.isEmpty = false ∧ versioning.isValid v = some true ∧
      (ignorePrereleaseOf config = true → versioning.isStable v = true) := by
  by_cases hpo : hasPositiveOffset config = true
  · rw [getNewValue_eq_validation hs hpo] at h
    simp only [Except.ok.injEq, Prod.mk.injEq] at h
    exact absurd h.1.symm hv
  have hpo' : hasPositiveOffset config = false := by
    simpa using hpo
  cases hfr : (fetchVersions env now cache config).versions with
  | error e =>
    rw [getNewValue_eq_err hs hpo' hfr] at h
    simp only [Except.ok.injEq, Prod.mk.injEq] at h
    exact absurd h.1.symm hv
  | ok versions =>
    rw [getNewValue_eq_ok hs hpo' hfr] at h
    simp only [Except.ok.injEq, Prod.mk.injEq] at h
    obtain ⟨hveq, -, -⟩ := h
    rcases selectNewValue_eq_or_mem versioning config currentValue
        currentVersion versions with hcv | ⟨vr, hvr, hmem⟩
    · rw [hveq] at hcv
      exact absurd hcv hv
    · subst hvr
      rw [hveq] at hmem
      obtain ⟨hrel, hne, hvalid, hstable⟩ :=
        mem_stableFiltered (mem_jsSortBy.mp hmem)
      exact ⟨vr, rfl, hrel, hne, hvalid, hstable⟩

/-- Witness for C10: the scenario resolution answers 2.1.0, which is the
version of the fourth fetched release, non-empty, valid and stable. -/
theorem getNewValue_result_from_registry_witness :
    ∃ vr, (fetchVersions scenarioEnv 0 [] scenarioConfig).versions =
        .ok (some vr) ∧
      (∃ r ∈ vr.releases, r.version = some "2.1.0") ∧
      ("2.1.0" : String).isEmpty = false ∧
      semverApi.isValid "2.1.0" = some true ∧
      (ignorePrereleaseOf scenarioConfig = true →
        semverApi.isStable "2.1.0" = true) :=
  getNewValue_result_from_registry scenarioEnv 0 [] "3.1.0" "replace"
    "3.1.0" scenarioConfig semverApi "2.1.0"
    (memSet [] cacheNamespace (cacheKeyOf scenarioConfig) scenarioReleases
      15 0) 1
    rfl (by decide) (by decide)

/-- In grouped mode, an answer that is not the fallback comes from the
semver-group selection. -/
theorem selectNewValue_grouped_some {versioning : VersioningApi}
    {config : ResolveConfig} {currentValue currentVersion : String}
    {versions : Option ReleaseResult} {level : Level}
    (hl : offsetLevelOf config = some level)
    (ho : offsetOf config ≠ 0)
    (hv : selectNewValue versioning config currentValue currentVersion
      versions ≠ currentValue) :
    ∃ vr, versions = some vr ∧
      getVersionFromSemverGroups
        (groupVersionsBySemverLevel (sortedOf versioning config vr)
          versioning level)
        versioning (offsetOf config) level currentVersion =
      some (selectNewValue versioning config currentValue currentVersion
        versions) := by
  cases versions with
  | none => exact absurd rfl hv
  | some vr =>
    refine ⟨vr, rfl, ?_⟩
    rw [selectNewValue_some] at hv ⊢
    by_cases h1 : vr.releases.length = 0
    · rw [if_pos h1] at hv; exact absurd rfl hv
    rw [if_neg h1] at hv ⊢
    by_cases h2 : (stableFiltered versioning config vr.releases).length = 0
    · rw [if_pos h2] at hv; exact absurd rfl hv
    rw [if_neg h2] at hv ⊢
    by_cases h3 : (sortedOf versioning config vr).length = 0
    · rw [if_pos h3] at hv; exact absurd rfl hv
    rw [if_neg h3] at hv ⊢
    rw [if_neg ho] at hv ⊢
    rw [hl] at hv ⊢
    dsimp only at hv ⊢
    cases hg : getVersionFromSemverGroups
        (groupVersionsBySemverLevel (sortedOf versioning config vr)
          versioning level)
        versioning (offsetOf config) level currentVersion with
    | none =>
      rw [hg] at hv
      exact absurd rfl hv
    | some result =>
      rw [hg] at hv
      dsimp only at hv ⊢
      by_cases he : result.isEmpty
      · rw [if_pos he] at hv; exact absurd rfl hv
      · rw [if_neg he]

/-- C6: a grouped-mode resolution at minor (respectively patch) level that
answers a string different from the current value always stays inside the
current version's major (respectively major and minor) component under the
scheme's getMajor/getMinor; cross-major (cross-minor) selections never
occur. -/
theorem getNewValue_sibling_only :
    (∀ (env : Env) (now : Nat) (cache : Cache)
        (currentValue rangeStrategy currentVersion : String)
        (config : ResolveConfig) (versioning : VersioningApi)
        (v : String) (c : Cache) (n : Nat),
        env.schemes config.versioning = some versioning →
        offsetLevelOf config = some Level.minor →
        offsetOf config ≠ 0 →
        getNewValue env now cache currentValue rangeStrategy currentVersion
          config = .ok (v, c, n) →
        v ≠ currentValue →
        versioning.getMajor v = versioning.getMajor currentVersion) ∧
    (∀ (env : Env) (now : Nat) (cache : Cache)
        (currentValue rangeStrategy currentVersion : String)
        (config : ResolveConfig) (versioning : VersioningApi)
        (v : String) (c : Cache) (n : Nat),
        env.schemes config.versioning = some versioning →
        offsetLevelOf config = some Level.patch →
        offsetOf config ≠ 0 →
        getNewValue env now cache currentValue rangeStrategy currentVersion
          config = .ok (v, c, n) →
        v ≠ currentValue →
        versioning.getMajor v = versioning.getMajor currentVersion ∧
        versioning.getMinor v = versioning.getMinor currentVersion) := by
  have main : ∀ (env : Env) (now : Nat) (cache : Cache)
      (currentValue rangeStrategy currentVersion : String)
      (config : ResolveConfig) (versioning : VersioningApi)
      (v : String) (c : Cache) (n : Nat) (level : Level),
      env.schemes config.versioning = some versioning →
      offsetLevelOf config = some level →
      offsetOf config ≠ 0 →
      getNewValue env now cache currentValue rangeStrategy currentVersion
        config = .ok (v, c, n) →
      v ≠ currentValue →
      ∃ key : GroupKey,
        (level = Level.minor →
          key.head? = some (versioning.getMajor currentVersion)) ∧
        (level = Level.patch →
          key.head? = some (versioning.getMajor currentVersion) ∧
          key.get? 1 = some (versioning.getMinor currentVersion)) ∧
        groupKeyFor versioning level v = key := by
    intro env now cache currentValue rangeStrategy currentVersion config
      versioning v c n level hs hl ho h hv
    by_cases hpo : hasPositiveOffset config = true
    · rw [getNewValue_eq_validation hs hpo] at h
      simp only [Except.ok.injEq, Prod.mk.injEq] at h
      exact absurd h.1.symm hv
    have hpo' : hasPositiveOffset config = false := by simpa using hpo
    cases hfr : (fetchVersions env now cache config).versions with
    | error e =>
      rw [getNewValue_eq_err hs hpo' hfr] at h
      simp only [Except.ok.injEq, Prod.mk.injEq] at h
      exact absurd h.1.symm hv
    | ok versions =>
      rw [getNewValue_eq_ok hs hpo' hfr] at h
      simp only [Except.ok.injEq, Prod.mk.injEq] at h
      obtain ⟨hveq, -, -⟩ := h
      have hvne : selectNewValue versioning config currentValue
          currentVersion versions ≠ currentValue := by
        rw [hveq]; exact hv
      obtain ⟨vr, hvr, hg⟩ := selectNewValue_grouped_some hl ho hvne
      rw [hveq] at hg
      obtain ⟨key, vs, hkm, hmi, hpa, hfind, hlast, -⟩ :=
        getVersionFromSemverGroups_some hg
      have hkeq := (mem_groupVersionsBySemverLevel (assocFind_mem hfind) v
        (getLast?_mem hlast)).2.1
      exact ⟨key, hmi, hpa, hkeq⟩
  constructor
  · intro env now cache currentValue rangeStrategy currentVersion config
      versioning v c n hs hl ho h hv
    obtain ⟨key, hmi, -, hkeq⟩ := main env now cache currentValue
      rangeStrategy currentVersion config versioning v c n Level.minor
      hs hl ho h hv
    have hhead : key.head? = some (versioning.getMajor v) := by
      rw [← hkeq]; rfl
    rw [hmi rfl] at hhead
    exact (Option.some.injEq _ _ ▸ hhead).symm ▸ rfl
  · intro env now cache currentValue rangeStrategy currentVersion config
      versioning v c n hs hl ho h hv
    obtain ⟨key, -, hpa, hkeq⟩ := main env now cache currentValue
      rangeStrategy currentVersion config versioning v c n Level.patch
      hs hl ho h hv
    obtain ⟨hhead, hsecond⟩ := hpa rfl
    have hhead' : key.head? = some (versioning.getMajor v) := by
      rw [← hkeq]; rfl
    have hsecond' : key.get? 1 = some (versioning.getMinor v) := by
      rw [← hkeq]; rfl
    rw [hhead] at hhead'
    rw [hsecond] at hsecond'
    constructor
    · exact (Option.some.inj hhead').symm
    · exact (Option.some.inj hsecond').symm

/-- Minor-level grouped configuration (offset -1 within the current
major). -/
def minorOffsetConfig : ResolveConfig where
  datasource := some "npm"
  packageName := some "left-pad"
  versioning := "semver"
  constraints := some { offset := some (-1), offsetLevel := some Level.minor }

/-- Witness for C6: resolving from 1.1.0 with offset -1 at minor level
answers 1.0.0, which shares major 1 with the current version. -/
theorem getNewValue_sibling_only_witness :
    semverApi.getMajor "1.0.0" = semverApi.getMajor "1.1.0" :=
  getNewValue_sibling_only.1 scenarioEnv 0 [] "1.1.0" "replace" "1.1.0"
    minorOffsetConfig semverApi "1.0.0"
    (memSet [] cacheNamespace (cacheKeyOf minorOffsetConfig)
      scenarioReleases 15 0) 1
    rfl rfl (by decide) (by decide) (by decide)

/-- C8: whenever the offset magnitude reaches the length of the filtered,
sorted version list, the resolution answers the caller's current value: in
flat mode the index length - 1 + offset falls below 0, and in grouped mode
the group count is at most the list length, so the group index also falls
below 0. -/
theorem getNewValue_offset_exceeds (env : Env) (now : Nat) (cache : Cache)
    (currentValue rangeStrategy currentVersion : String)
    (config : ResolveConfig) (versioning : VersioningApi) (vr : ReleaseResult)
    (hs : env.schemes config.versioning = some versioning)
    (hfr : (fetchVersions env now cache config).versions = .ok (some vr))
    (habs : (sortedOf versioning config vr).length ≤
      (offsetOf config).natAbs) :
    ∃ c n, getNewValue env now cache currentValue rangeStrategy
      currentVersion config = .ok (currentValue, c, n) := by
  by_cases hpo : hasPositiveOffset config = true
  · exact ⟨cache, 0, getNewValue_eq_validation hs hpo⟩
  have hpo' : hasPositiveOffset config = false := by simpa using hpo
  have hneg : offsetOf config ≤ 0 := offsetOf_nonpos hpo'
  refine ⟨(fetchVersions env now cache config).cache,
    (fetchVersions env now cache config).fetchCount, ?_⟩
  rw [getNewValue_eq_ok hs hpo' hfr]
  have hsel : selectNewValue versioning config currentValue currentVersion
      (some vr) = currentValue := by
    rw [selectNewValue_some]
    by_cases h1 : vr.releases.length = 0
    · rw [if_pos h1]
    rw [if_neg h1]
    by_cases h2 : (stableFiltered versioning config vr.releases).length = 0
    · rw [if_pos h2]
    rw [if_neg h2]
    by_cases h3 : (sortedOf versioning config vr).length = 0
    · rw [if_pos h3]
    rw [if_neg h3]
    have ho : ¬offsetOf config = 0 := by
      intro hc
      rw [hc] at habs
      exact h3 (Nat.le_zero.mp (by simpa using habs))
    rw [if_neg ho]
    cases hl : offsetLevelOf config with
    | some level =>
      dsimp only
      have hgl := groupVersionsBySemverLevel_length
        (sortedOf versioning config vr) versioning level
      rw [getVersionFromSemverGroups_offset_out _ _ _ _ _ (by omega)]
    | none =>
      dsimp only
      rw [if_pos (Or.inl (by omega))]
  rw [hsel]

/-- Configuration whose offset magnitude exceeds the six scenario
releases. -/
def largeOffsetConfig : ResolveConfig where
  datasource := some "npm"
  packageName := some "left-pad"
  versioning := "semver"
  constraints := some { offset := some (-10) }

/-- Witness for C8: offset -10 over six releases keeps the current
value. -/
theorem getNewValue_offset_exceeds_witness :
    ∃ c n, getNewValue scenarioEnv 0 [] "3.1.0" "replace" "3.1.0"
      largeOffsetConfig = .ok ("3.1.0", c, n) :=
  getNewValue_offset_exceeds scenarioEnv 0 [] "3.1.0" "replace" "3.1.0"
    largeOffsetConfig semverApi scenarioReleases rfl (by decide) (by decide)

/-- C2: in grouped mode (offsetLevel present, offset nonzero) the answer
is computed by grouping the sorted filtered versions at the requested
level, ordering group keys by each group's maximal member, selecting the
group at index groupCount - 1 + offset of the sibling-filtered key list
and taking its maximal member, with the caller's current value as fallback
when the filtered group list is empty or the index is out of range; on the
spec's scenario (six releases, current 3.1.0, offset -1 at major level)
the answer is 2.1.0. -/
theorem getNewValue_grouped_mode :
    (∀ (env : Env) (now : Nat) (cache : Cache)
        (currentValue rangeStrategy currentVersion : String)
        (config : ResolveConfig) (versioning : VersioningApi)
        (vr : ReleaseResult) (level : Level),
        env.schemes config.versioning = some versioning →
        hasPositiveOffset config = false →
        (fetchVersions env now cache config).versions = .ok (some vr) →
        offsetLevelOf config = some level →
        offsetOf config ≠ 0 →
        getNewValue env now cache currentValue rangeStrategy currentVersion
          config =
          .ok ((match getVersionFromSemverGroups
              (groupVersionsBySemverLevel (sortedOf versioning config vr)
                versioning level)
              versioning (offsetOf config) level currentVersion with
            | some result => if result.isEmpty then currentValue else result
            | none => currentValue),
            (fetchVersions env now cache config).cache,
            (fetchVersions env now cache config).fetchCount)) ∧
    getNewValue scenarioEnv 0 [] "3.1.0" "replace" "3.1.0" scenarioConfig =
      .ok ("2.1.0",
        memSet [] cacheNamespace (cacheKeyOf scenarioConfig)
          scenarioReleases 15 0, 1) := by
  constructor
  · intro env now cache currentValue rangeStrategy currentVersion config
      versioning vr level hs hpo hfr hl ho
    rw [getNewValue_eq_ok hs hpo hfr]
    have hsel : selectNewValue versioning config currentValue currentVersion
        (some vr) =
        (match getVersionFromSemverGroups
            (groupVersionsBySemverLevel (sortedOf versioning config vr)
              versioning level)
            versioning (offsetOf config) level currentVersion with
        | some result => if result.isEmpty then currentValue else result
        | none => currentValue) := by
      rw [selectNewValue_some]
      by_cases h1 : vr.releases.length = 0
      · rw [if_pos h1]
        have hso : sortedOf versioning config vr = [] := by
          unfold sortedOf
          rw [List.length_eq_zero.mp h1, stableFiltered_nil]
          rfl
        rw [hso]
        rfl
      rw [if_neg h1]
      by_cases h2 : (stableFiltered versioning config vr.releases).length = 0
      · rw [if_pos h2]
        have hso : sortedOf versioning config vr = [] := by
          unfold sortedOf
          rw [List.length_eq_zero.mp h2]
          rfl
        rw [hso]
        rfl
      rw [if_neg h2]
      by_cases h3 : (sortedOf versioning config vr).length = 0
      · rw [if_pos h3, List.length_eq_zero.mp h3]
        rfl
      rw [if_neg h3, if_neg ho, hl]
    rw [hsel]
  · decide

/-- Witness for C2's general clause at the concrete scenario. -/
theorem getNewValue_grouped_mode_witness :
    getNewValue scenarioEnv 0 [] "3.1.0" "replace" "3.1.0" scenarioConfig =
      .ok ((match getVersionFromSemverGroups
          (groupVersionsBySemverLevel
            (sortedOf semverApi scenarioConfig scenarioReleases)
            semverApi Level.major)
          semverApi (offsetOf scenarioConfig) Level.major "3.1.0" with
        | some result => if result.isEmpty then "3.1.0" else result
        | none => "3.1.0"),
        (fetchVersions scenarioEnv 0 [] scenarioConfig).cache,
        (fetchVersions scenarioEnv 0 [] scenarioConfig).fetchCount) :=
  getNewValue_grouped_mode.1 scenarioEnv 0 [] "3.1.0" "replace" "3.1.0"
    scenarioConfig semverApi scenarioReleases Level.major
    rfl (by decide) (by decide) rfl (by decide)
